import Mathlib

set_option maxHeartbeats 1000000

/-!
Shallow embedding of the `todo-tui` task manager (todo.txt parser/serializer,
zustand task store, keyboard panel ring) and proofs about its specification.

JavaScript strings are modelled through their character lists; the handful of
regular expressions used by the code (`@\S+`, `\+\S+`, `(\S+):(\S+)`, date and
priority tokens, the `^\(([A-Z])\)\s+(.+)$` new-task prefix) are translated
into explicit scanners over `List Char`.
-/

namespace TodoTui

/-- JS whitespace (`\s`), restricted to the ASCII characters that occur here. -/
def isWs (c : Char) : Bool :=
  c = ' ' || c = '\t' || c = '\n' || c = '\r' || c = '\x0b' || c = '\x0c'

/-- JS line terminators (not matched by `.`). -/
def isLineTerm (c : Char) : Bool :=
  c = '\n' || c = '\r'

/-- JS regex word character `\w`. -/
def isWordChar (c : Char) : Bool :=
  ('a' ≤ c && c ≤ 'z') || ('A' ≤ c && c ≤ 'Z') || ('0' ≤ c && c ≤ '9') || c = '_'

def isDigitCh (c : Char) : Bool := '0' ≤ c && c ≤ '9'

def isUpperCh (c : Char) : Bool := 'A' ≤ c && c ≤ 'Z'

/-- JS `String.prototype.trim` on the character list. -/
def trimCh (l : List Char) : List Char :=
  ((l.dropWhile isWs).reverse.dropWhile isWs).reverse

def jsTrim (s : String) : String := ⟨trimCh s.data⟩

/-- JS `str.split(sep)` for a single-character separator (as in `content.split('\n')`). -/
def splitCh (sep : Char) : List Char → List (List Char)
  | [] => [[]]
  | c :: rest =>
    if c = sep then [] :: splitCh sep rest
    else
      match splitCh sep rest with
      | [] => [[c]]
      | w :: ws => (c :: w) :: ws

def intercalateCh (sep : Char) : List (List Char) → List Char
  | [] => []
  | [w] => w
  | w :: ws => w ++ sep :: intercalateCh sep ws

theorem splitCh_ne_nil (sep : Char) (l : List Char) : splitCh sep l ≠ [] := by
  induction l with
  | nil => simp [splitCh]
  | cons c rest ih =>
    simp only [splitCh]
    split
    · simp
    · cases h : splitCh sep rest with
      | nil => simp
      | cons w ws => simp

theorem intercalateCh_splitCh (sep : Char) (l : List Char) :
    intercalateCh sep (splitCh sep l) = l := by
  induction l with
  | nil => simp [splitCh, intercalateCh]
  | cons c rest ih =>
    simp only [splitCh]
    split
    · rename_i h
      cases h2 : splitCh sep rest with
      | nil => exact absurd h2 (splitCh_ne_nil sep rest)
      | cons w ws =>
        rw [h2] at ih
        simp only [intercalateCh, h]
        simpa using ih
    · cases h2 : splitCh sep rest with
      | nil => exact absurd h2 (splitCh_ne_nil sep rest)
      | cons w ws =>
        rw [h2] at ih
        cases ws with
        | nil => simp only [intercalateCh] at ih ⊢; simp [ih]
        | cons w2 ws2 => simp only [intercalateCh] at ih ⊢; simp [ih]

/-- First whitespace-delimited token: `remaining.split(/\s+/)[0]` on an already
trimmed string. -/
def firstTok (l : List Char) : List Char :=
  l.takeWhile (fun c => !isWs c)

/-- The `DATE_REGEX` test `/^\d\d\d\d-\d\d-\d\d$/` spelled out. -/
def isDateTok (l : List Char) : Bool :=
  match l with
  | [a, b, c, d, e, f, g, h, i, j] =>
    isDigitCh a && isDigitCh b && isDigitCh c && isDigitCh d && e = '-' &&
    isDigitCh f && isDigitCh g && h = '-' && isDigitCh i && isDigitCh j
  | _ => false

def isDateStr (s : String) : Bool := isDateTok s.data

/-- Matches of the global regex `@\S+` (resp. `\+\S+`), each returned without
the leading tag character, i.e. already after `.substring(1)`. The scan
consumes at least one character per step, so the input length is enough fuel;
the explicit fuel keeps the recursion structural. -/
def tagMatchesFuel (tag : Char) : Nat → List Char → List (List Char)
  | 0, _ => []
  | _ + 1, [] => []
  | fuel + 1, c :: rest =>
    let run := rest.takeWhile (fun x => !isWs x)
    if c = tag ∧ run ≠ [] then run :: tagMatchesFuel tag fuel (rest.drop run.length)
    else tagMatchesFuel tag fuel rest

def tagMatches (tag : Char) (l : List Char) : List (List Char) :=
  tagMatchesFuel tag l.length l

def extractContexts (text : String) : List String :=
  (tagMatches '@' text.data).map (fun l => ⟨l⟩)

def extractProjects (text : String) : List String :=
  (tagMatches '+' text.data).map (fun l => ⟨l⟩)

/-- Maximal non-whitespace runs of a string, in order (same fuel pattern). -/
def wordRunsFuel : Nat → List Char → List (List Char)
  | 0, _ => []
  | _ + 1, [] => []
  | fuel + 1, c :: rest =>
    if isWs c then wordRunsFuel fuel rest
    else
      let run := rest.takeWhile (fun x => !isWs x)
      (c :: run) :: wordRunsFuel fuel (rest.drop run.length)

def wordRuns (l : List Char) : List (List Char) :=
  wordRunsFuel l.length l

/-- The `key`/`value` a run contributes under the global regex
`(\S+):(\S+)` followed by `match.split(':')` and the
`key && value && !key.startsWith('@') && !key.startsWith('+')` guard. -/
def metaOfRun (run : List Char) : Option (String × String) :=
  let key := run.takeWhile (fun c => c ≠ ':')
  let rest := run.drop (key.length + 1)
  let val := rest.takeWhile (fun c => c ≠ ':')
  if key.length < run.length ∧ key ≠ [] ∧ val ≠ [] ∧
      key.head? ≠ some '@' ∧ key.head? ≠ some '+' then
    some (⟨key⟩, ⟨val⟩)
  else none

/-- JS object assignment `metadata[key] = value`: overwrite in place, append new
keys at the end. -/
def metaPut (m : List (String × String)) (k v : String) : List (String × String) :=
  if m.any (fun p => p.1 = k) then m.map (fun p => if p.1 = k then (k, v) else p)
  else m ++ [(k, v)]

def extractMetadata (text : String) : List (String × String) :=
  (wordRuns text.data).foldl
    (fun m run =>
      match metaOfRun run with
      | some (k, v) => metaPut m k v
      | none => m)
    []

def metaLookup (m : List (String × String)) (k : String) : Option String :=
  (m.find? (fun p => p.1 = k)).map (fun p => p.2)

def metaKeys (m : List (String × String)) : List String := m.map (fun p => p.1)

def metaDelete (m : List (String × String)) (k : String) : List (String × String) :=
  m.filter (fun p => p.1 ≠ k)

structure Task where
  id : Nat
  completed : Bool
  priority : Option String
  completionDate : Option String
  creationDate : Option String
  text : String
  contexts : List String
  projects : List String
  metadata : List (String × String)
deriving Repr, DecidableEq

/-- The fields `parseLine` computes before the id is attached. -/
structure LineFields where
  completed : Bool
  priority : Option String
  completionDate : Option String
  creationDate : Option String
  text : String
  contexts : List String
  projects : List String
  metadata : List (String × String)
deriving Repr, DecidableEq

def parseFields (line : String) : Option LineFields :=
  let t := trimCh line.data
  if t = [] then none
  else
    let step1 : Bool × Option String × List Char :=
      match t with
      | 'x' :: ' ' :: rest =>
        let r := trimCh rest
        let ft := firstTok r
        if ft ≠ [] ∧ isDateTok ft then (true, some ⟨ft⟩, trimCh (r.drop ft.length))
        else (true, none, r)
      | _ => (false, none, t)
    let completed := step1.1
    let compDate := step1.2.1
    let r1 := step1.2.2
    let step2 : Option String × List Char :=
      if ¬completed ∨ compDate.isSome then
        match firstTok r1 with
        | ['(', c, ')'] =>
          if isUpperCh c || isDigitCh c then
            (some ⟨[c]⟩, trimCh (r1.drop 3))
          else (none, r1)
        | _ => (none, r1)
      else (none, r1)
    let prio := step2.1
    let r2 := step2.2
    let step3 : Option String × List Char :=
      let ft := firstTok r2
      if ft ≠ [] ∧ isDateTok ft then (some ⟨ft⟩, trimCh (r2.drop ft.length))
      else (none, r2)
    let cre := step3.1
    let r3 := step3.2
    some
      { completed := completed
        priority := prio
        completionDate := compDate
        creationDate := cre
        text := ⟨r3⟩
        contexts := extractContexts ⟨r3⟩
        projects := extractProjects ⟨r3⟩
        metadata := extractMetadata ⟨r3⟩ }

def mkTask (id : Nat) (f : LineFields) : Task :=
  { id := id
    completed := f.completed
    priority := f.priority
    completionDate := f.completionDate
    creationDate := f.creationDate
    text := f.text
    contexts := f.contexts
    projects := f.projects
    metadata := f.metadata }

def parseLine (line : String) (id : Nat) : Option Task :=
  (parseFields line).map (mkTask id)

def joinWith (sep : String) : List String → String
  | [] => ""
  | [x] => x
  | x :: xs => x ++ sep ++ joinWith sep xs

def serializeTask (t : Task) : String :=
  let parts : List String :=
    (if t.completed then
      "x" :: (match t.completionDate with | some d => [d] | none => [])
     else []) ++
    (match t.priority with | some p => ["(" ++ p ++ ")"] | none => []) ++
    (match t.creationDate with | some d => [d] | none => []) ++
    [t.text]
  joinWith " " parts

def jsSplitNl (content : String) : List String :=
  (splitCh '\n' content.data).map (fun l => ⟨l⟩)

def parseLinesFrom : List String → Nat → List Task
  | [], _ => []
  | l :: ls, k =>
    match parseLine l k with
    | some t => t :: parseLinesFrom ls (k + 1)
    | none => parseLinesFrom ls (k + 1)

def parseTodoFile (content : String) : List Task :=
  parseLinesFrom (jsSplitNl content) 1

def serializeTodoFile (tasks : List Task) : String :=
  joinWith "\n" (tasks.map serializeTask) ++ "\n"

inductive PriorityFmt | letter | number
deriving Repr, DecidableEq

/-- Conversion of one priority symbol: letter→number clamps at 9 (`A`=0 … `I`=8, `J`+ = 9),
number→letter maps 0=`A` … 9=`J`; non-matching priorities pass through. -/
def convertOne (target : PriorityFmt) (p : String) : String :=
  match target with
  | .number =>
    match p.data with
    | [c] =>
      if isUpperCh c then ⟨[Char.ofNat ('0'.toNat + min (c.toNat - 'A'.toNat) 9)]⟩
      else p
    | _ => p
  | .letter =>
    match p.data with
    | [c] =>
      if isDigitCh c then ⟨[Char.ofNat ('A'.toNat + (c.toNat - '0'.toNat))]⟩
      else p
    | _ => p

def convertPriorities (tasks : List Task) (target : PriorityFmt) : List Task :=
  tasks.map (fun t =>
    match t.priority with
    | none => t
    | some p => { t with priority := some (convertOne target p) })

/-! ### Store model (zustand `useTodoStore`) -/

inductive FilterType | priority | project | context | dueOverdue | doneToday | active
deriving Repr, DecidableEq

structure ActiveFilter where
  type : FilterType
  value : String
deriving Repr, DecidableEq

inductive SortMode | priority | date | project | context
deriving Repr, DecidableEq

/-- Lexicographic `<` on strings (JS `dueDate < today` on ISO dates). -/
def lexLtCh : List Char → List Char → Bool
  | [], [] => false
  | [], _ :: _ => true
  | _ :: _, [] => false
  | a :: as, b :: bs => if a < b then true else if b < a then false else lexLtCh as bs

def lexLt (a b : String) : Bool := lexLtCh a.data b.data

/-- JS `localeCompare`, modelled as code-point comparison (adequate for the ASCII
priority symbols, tags and ISO dates this code compares). -/
def lexCmpCh : List Char → List Char → Int
  | [], [] => 0
  | [], _ :: _ => -1
  | _ :: _, [] => 1
  | a :: as, b :: bs => if a < b then -1 else if b < a then 1 else lexCmpCh as bs

def lexCmp (a b : String) : Int := lexCmpCh a.data b.data

/-- JS truthiness of `metadata.due` / `priority` / `creationDate` string fields:
absent or empty is falsy. -/
def optFalsy : Option String → Bool
  | none => true
  | some s => s = ""

def isOverdue (today : String) (t : Task) : Bool :=
  if optFalsy (metaLookup t.metadata "due") then false
  else lexLt ((metaLookup t.metadata "due").getD "") today && !t.completed

def isDueToday (today : String) (t : Task) : Bool :=
  if optFalsy (metaLookup t.metadata "due") then false
  else ((metaLookup t.metadata "due").getD "" = today) && !t.completed

def isCompletedToday (today : String) (t : Task) : Bool :=
  if !t.completed || optFalsy t.completionDate then false
  else t.completionDate.getD "" = today

/-- JS `task.priority !== filter.value` with `priority : string | null` and a
string filter value: `null` is never equal to a string. -/
def priMatches (p : Option String) (v : String) : Bool :=
  match p with
  | none => false
  | some s => s = v

def jsToLower (s : String) : String := ⟨s.data.map Char.toLower⟩

def isPre : List Char → List Char → Bool
  | [], _ => true
  | _ :: _, [] => false
  | a :: as, b :: bs => a = b && isPre as bs

/-- JS `hay.includes(needle)`. -/
def containsSub (hay needle : String) : Bool :=
  go hay.data needle.data
where
  go : List Char → List Char → Bool
    | hay, nd =>
      if isPre nd hay then true
      else
        match hay with
        | [] => false
        | _ :: rest => go rest nd

def searchHit (search : String) (t : Task) : Bool :=
  let s := jsToLower search
  containsSub (jsToLower t.text) s ||
  t.contexts.any (fun c => containsSub (jsToLower c) s) ||
  t.projects.any (fun p => containsSub (jsToLower p) s)

/-- The `tasks.filter` callback of `updateFilteredTasks`: an active filter, when
set, entirely replaces the `showCompleted` gate; the search filter then narrows
further. -/
def keepTask (today : String) (af : Option ActiveFilter) (showCompleted : Bool)
    (search : String) (t : Task) : Bool :=
  let pass : Bool :=
    match af with
    | some f =>
      if f.type = .priority ∧ ¬priMatches t.priority f.value then false
      else if f.type = .project ∧ ¬t.projects.contains f.value then false
      else if f.type = .context ∧ ¬t.contexts.contains f.value then false
      else if f.type = .dueOverdue ∧ ¬isOverdue today t ∧ ¬isDueToday today t then false
      else if f.type = .doneToday ∧ ¬isCompletedToday today t then false
      else if f.type = .active ∧ t.completed then false
      else true
    | none => if ¬showCompleted ∧ t.completed then false else true
  if pass then (if search ≠ "" then searchHit search t else true) else false

/-- The sort comparator of `updateFilteredTasks` (result sign as in JS). -/
def cmpTasks (mode : SortMode) (a b : Task) : Int :=
  if a.completed ≠ b.completed then (if a.completed then 1 else -1)
  else
    let k : Int :=
      match mode with
      | .priority =>
        if a.priority ≠ b.priority then
          if optFalsy a.priority then 1
          else if optFalsy b.priority then -1
          else lexCmp (a.priority.getD "") (b.priority.getD "")
        else 0
      | .date =>
        if a.creationDate ≠ b.creationDate then
          if optFalsy a.creationDate then 1
          else if optFalsy b.creationDate then -1
          else lexCmp (a.creationDate.getD "") (b.creationDate.getD "")
        else 0
      | .project =>
        let ap := a.projects.headD ""
        let bp := b.projects.headD ""
        if ap ≠ bp then lexCmp ap bp else 0
      | .context =>
        let ac := a.contexts.headD ""
        let bc := b.contexts.headD ""
        if ac ≠ bc then lexCmp ac bc else 0
    if k ≠ 0 then k else (a.id : Int) - (b.id : Int)

/-- Insert `x` into `l` before the first element it compares `≤ 0` against. -/
def insertSorted (le : Task → Task → Bool) (x : Task) : List Task → List Task
  | [] => [x]
  | y :: ys => if le x y then x :: y :: ys else y :: insertSorted le x ys

/-- JS `Array.prototype.sort` is a stable sort; modelled as a stable insertion
sort over the comparator (same result for a consistent comparator). -/
def sortTasks (mode : SortMode) (l : List Task) : List Task :=
  l.foldr (insertSorted (fun a b => cmpTasks mode a b ≤ 0)) []

theorem mem_insertSorted (le : Task → Task → Bool) (x a : Task) (l : List Task) :
    a ∈ insertSorted le x l ↔ a = x ∨ a ∈ l := by
  induction l with
  | nil => simp [insertSorted]
  | cons y ys ih =>
    simp only [insertSorted]
    split
    · simp
    · simp [ih]
      tauto

theorem mem_sortTasks (mode : SortMode) (a : Task) (l : List Task) :
    a ∈ sortTasks mode l ↔ a ∈ l := by
  unfold sortTasks
  induction l with
  | nil => simp
  | cons y ys ih =>
    simp [List.foldr, mem_insertSorted, ih]

structure StoreState where
  tasks : List Task
  filteredTasks : List Task
  history : List (List Task)
  currentTaskIndex : Nat
  currentElementIndex : Nat
  showCompleted : Bool
  searchFilter : String
  activeFilter : Option ActiveFilter
  sortMode : SortMode
  yankedTask : Option Task
deriving Repr, DecidableEq

def visibleTasks (today : String) (s : StoreState) : List Task :=
  sortTasks s.sortMode
    (s.tasks.filter (keepTask today s.activeFilter s.showCompleted s.searchFilter))

/-- The `updateFilteredTasks` action (recompute the derived view). -/
def refreshFiltered (today : String) (s : StoreState) : StoreState :=
  { s with filteredTasks := visibleTasks today s }

/-- The `saveToHistory` push of a (deep-copied) snapshot, with `shift()` of the oldest entry
when the stack exceeds 50. -/
def pushHistory (tasks : List Task) (h : List (List Task)) : List (List Task) :=
  let nh := h ++ [tasks]
  if nh.length > 50 then nh.tail else nh

def saveToHistory (s : StoreState) : StoreState :=
  { s with history := pushHistory s.tasks s.history }

/-- The `undo` action: restore the most recent snapshot and pop it; no-op on empty stack. -/
def undoStore (today : String) (s : StoreState) : StoreState :=
  match s.history.getLast? with
  | none => s
  | some prev =>
    refreshFiltered today { s with tasks := prev, history := s.history.dropLast }

/-- The selected task, `filteredTasks[currentTaskIndex]`. -/
def selected (s : StoreState) : Option Task :=
  s.filteredTasks.get? s.currentTaskIndex

/-- Fresh id for a new task: `max(existing ids) + 1`, or 1 for an empty store. -/
def newId (tasks : List Task) : Nat :=
  match tasks with
  | [] => 1
  | _ => (tasks.map Task.id).foldl max 0 + 1

/-! ### Mutating user actions -/

/-- The new-task prefix regex `^\(([A-Z])\)\s+(.+)$` (`.` does not match line
terminators; `\s+` is greedy and backtracks at most one whitespace character
into `.+` when nothing else follows). Returns the captured priority and the
`cleanText` remainder on success. -/
def jsPriorityMatch (value : String) : Option (String × String) :=
  match value.data with
  | '(' :: c :: ')' :: rest =>
    if isUpperCh c then
      let ws := rest.takeWhile isWs
      let tail := rest.dropWhile isWs
      if ws = [] then none
      else if tail ≠ [] ∧ tail.all (fun x => !isLineTerm x) then some (⟨[c]⟩, ⟨tail⟩)
      else if tail = [] ∧ ws.length ≥ 2 ∧ ¬isLineTerm (ws.getLastD ' ') then
        some (⟨[c]⟩, ⟨[ws.getLastD ' ']⟩)
      else none
    else none
  | _ => none

/-- The task built by the `newTask` command-bar submit (and the legacy
`addNewTask`): priority prefix scan, fresh id, today's creation date, derived
fields extracted from the clean text. -/
def newTaskOfInput (today : String) (tasks : List Task) (value : String) : Task :=
  let pm := jsPriorityMatch value
  let priority := pm.map (fun p => p.1)
  let cleanText := match pm with | some p => p.2 | none => value
  { id := newId tasks
    completed := false
    priority := priority
    completionDate := none
    creationDate := some today
    text := cleanText
    contexts := extractContexts cleanText
    projects := extractProjects cleanText
    metadata := extractMetadata cleanText }

/-- Per-task body of `toggleTaskCompletion`'s map. -/
def tglTask (today : String) (t : Task) : Task :=
  { t with
    completed := !t.completed
    completionDate := if !t.completed then some today else none }

/-- Per-task body of the `editTask` command-bar submit: text replaced and all
three derived fields re-extracted from the new text. -/
def editApply (value : String) (t : Task) : Task :=
  { t with
    text := value
    contexts := extractContexts value
    projects := extractProjects value
    metadata := extractMetadata value }

/-- JS `text.replace` with pattern `due:\S+` (first match only). -/
def replaceFirstDue (repl : List Char) : List Char → List Char
  | [] => []
  | c :: rest =>
    match c :: rest with
    | 'd' :: 'u' :: 'e' :: ':' :: r2 =>
      let run := r2.takeWhile (fun x => !isWs x)
      if run ≠ [] then repl ++ r2.drop run.length
      else c :: replaceFirstDue repl rest
    | _ => c :: replaceFirstDue repl rest

/-- Per-task body of the `addDueDate` submit. -/
def addDueApply (value : String) (t : Task) : Task :=
  { t with
    metadata := metaPut t.metadata "due" value
    text :=
      if optFalsy (metaLookup t.metadata "due") then t.text ++ " due:" ++ value
      else ⟨replaceFirstDue ("due:" ++ value).data t.text.data⟩ }

/-- Word boundary `\b` between a character just consumed and the rest of the input. -/
def boundaryAfter (last : Char) (rest : List Char) : Bool :=
  isWordChar last != (match rest with | [] => false | c :: _ => isWordChar c)

/-- Match of `lit` followed by `\b` at the head of `l`; returns the match
length (`lit.length`). -/
def litBMatchAt (lit : List Char) (l : List Char) : Option Nat :=
  if lit ≠ [] ∧ isPre lit l then
    if boundaryAfter (lit.getLastD ' ') (l.drop lit.length) then some lit.length
    else none
  else none

/-- Global removal of `lit` + `\b` matches (the `\+tag\b` / `@tag\b`
replacements of `deleteElement`); matches are found left to right and do not
overlap. A match always has length `lit.length ≥ 1`. -/
def removeAllLitB (lit : List Char) : List Char → List Char
  | [] => []
  | c :: rest =>
    match litBMatchAt lit (c :: rest) with
    | some n => removeAllLitB lit (rest.drop (n - 1))
    | none => c :: removeAllLitB lit rest
termination_by l => l.length
decreasing_by
  · simp only [List.length_cons, List.length_drop]
    omega
  · simp

/-- Greedy-with-backtracking `\S+\b` after a matched `key:`: the largest
prefix length `m ≥ 1` of the non-whitespace run with a word boundary after it.
`after` is the input following the run. -/
def backMatchAux (run : List Char) (after : List Char) : Nat → Option Nat
  | 0 => none
  | m + 1 =>
    let last := run.getD m ' '
    let next : Option Char :=
      match run.get? (m + 1) with
      | some c => some c
      | none => after.head?
    if isWordChar last != (match next with | some c => isWordChar c | none => false) then
      some (m + 1)
    else backMatchAux run after m

/-- Match of `key:\S+\b` at the head of `l`; returns the match length. -/
def metaPatMatchAt (key : List Char) (l : List Char) : Option Nat :=
  let pat := key ++ [':']
  if isPre pat l then
    let rest := l.drop pat.length
    let run := rest.takeWhile (fun c => !isWs c)
    match backMatchAux run (rest.drop run.length) run.length with
    | some m => some (pat.length + m)
    | none => none
  else none

/-- Global removal of `key:\S+\b` matches. A match always has length
`≥ key.length + 2 ≥ 1`. -/
def removeAllMetaPat (key : List Char) : List Char → List Char
  | [] => []
  | c :: rest =>
    match metaPatMatchAt key (c :: rest) with
    | some n => removeAllMetaPat key (rest.drop (n - 1))
    | none => c :: removeAllMetaPat key rest
termination_by l => l.length
decreasing_by
  · simp only [List.length_cons, List.length_drop]
    omega
  · simp

/-- Which displayed sub-token of a task the element cursor addresses
(sequential numbering of `deleteElement` / `getTaskElementCount`): checkbox,
priority slot, creation date when present, text, then one slot per project,
context and metadata pair. -/
inductive ElemTarget
  | checkbox | priorityE | dateE | textE
  | projectE (i : Nat) | contextE (i : Nat) | metaE (i : Nat)
  | outOfRange
deriving Repr, DecidableEq

def elemTarget (t : Task) (idx : Nat) : ElemTarget :=
  let dOff : Nat := if t.creationDate.isSome then 1 else 0
  if idx = 0 then .checkbox
  else if idx = 1 then .priorityE
  else if t.creationDate.isSome ∧ idx = 2 then .dateE
  else if idx = 2 + dOff then .textE
  else
    let base := 3 + dOff
    if idx < base + t.projects.length then .projectE (idx - base)
    else if idx < base + t.projects.length + t.contexts.length then
      .contextE (idx - base - t.projects.length)
    else if idx < base + t.projects.length + t.contexts.length + t.metadata.length then
      .metaE (idx - base - t.projects.length - t.contexts.length)
    else .outOfRange

/-- Decrement the element cursor if positive (`deleteElement` postlude). -/
def decEl (s : StoreState) : StoreState :=
  if s.currentElementIndex > 0 then
    { s with currentElementIndex := s.currentElementIndex - 1 }
  else s

/-- Map a per-task update over the task with the given id (all store mutations
address tasks by id). -/
def mapById (tasks : List Task) (id : Nat) (f : Task → Task) : List Task :=
  tasks.map (fun t => if t.id = id then f t else t)

/-- The `deleteElement` action: clear the addressed element of the selected task; checkbox
and main text are never deletable. -/
def applyDeleteElement (today : String) (s : StoreState) : StoreState :=
  match selected s with
  | none => s
  | some task =>
    match elemTarget task s.currentElementIndex with
    | .checkbox => s
    | .textE => s
    | .outOfRange => s
    | .priorityE =>
      if task.priority.isSome then
        let s1 := saveToHistory s
        let s2 := { s1 with tasks := mapById s1.tasks task.id (fun t => { t with priority := none }) }
        decEl (refreshFiltered today s2)
      else s
    | .dateE =>
      let s1 := saveToHistory s
      let s2 := { s1 with tasks := mapById s1.tasks task.id (fun t => { t with creationDate := none }) }
      decEl (refreshFiltered today s2)
    | .projectE i =>
      let s1 := saveToHistory s
      let proj := task.projects.getD i ""
      let s2 :=
        { s1 with
          tasks := mapById s1.tasks task.id (fun t =>
            { t with
              projects := t.projects.filter (fun p => p ≠ proj)
              text := jsTrim ⟨removeAllLitB ('+' :: proj.data) t.text.data⟩ }) }
      decEl (refreshFiltered today s2)
    | .contextE i =>
      let s1 := saveToHistory s
      let ctx := task.contexts.getD i ""
      let s2 :=
        { s1 with
          tasks := mapById s1.tasks task.id (fun t =>
            { t with
              contexts := t.contexts.filter (fun p => p ≠ ctx)
              text := jsTrim ⟨removeAllLitB ('@' :: ctx.data) t.text.data⟩ }) }
      decEl (refreshFiltered today s2)
    | .metaE i =>
      let s1 := saveToHistory s
      let key := (metaKeys task.metadata).getD i ""
      let s2 :=
        { s1 with
          tasks := mapById s1.tasks task.id (fun t =>
            { t with
              metadata := metaDelete t.metadata key
              text := jsTrim ⟨removeAllMetaPat key.data t.text.data⟩ }) }
      decEl (refreshFiltered today s2)

/-- A `Partial<Task>` patch; `none` fields are absent from the patch. -/
structure Patch where
  completed : Option Bool := none
  priority : Option (Option String) := none
  completionDate : Option (Option String) := none
  creationDate : Option (Option String) := none
  text : Option String := none
  contexts : Option (List String) := none
  projects : Option (List String) := none
  metadata : Option (List (String × String)) := none
deriving Repr, DecidableEq

/-- Object spread of a patch over a task (JS spread of `updates` over `t`). -/
def mergePatch (t : Task) (p : Patch) : Task :=
  { t with
    completed := p.completed.getD t.completed
    priority := p.priority.getD t.priority
    completionDate := p.completionDate.getD t.completionDate
    creationDate := p.creationDate.getD t.creationDate
    text := p.text.getD t.text
    contexts := p.contexts.getD t.contexts
    projects := p.projects.getD t.projects
    metadata := p.metadata.getD t.metadata }

/-- The mutating user actions quantified over by the undo property. -/
inductive Action
  | addTask (t : Task)
  | newTask (value : String)
  | editTaskText (value : String)
  | updateTask (id : Nat) (patch : Patch)
  | deleteTask (id : Nat)
  | toggleCompletion
  | setPriority (p : String)
  | addProject (value : String)
  | addContext (value : String)
  | addDueDate (value : String)
  | deleteElement
  | paste
  | convertFormat (target : PriorityFmt)

/-- Move the cursor to a freshly appended task (`findIndex` on the recomputed
view). -/
def moveCursorTo (s : StoreState) (id : Nat) : StoreState :=
  match s.filteredTasks.findIdx? (fun t => t.id = id) with
  | some i => { s with currentTaskIndex := i }
  | none => s

def applyAction (today : String) : Action → StoreState → StoreState
  | .addTask t, s =>
    let s1 := saveToHistory s
    refreshFiltered today { s1 with tasks := s1.tasks ++ [t] }
  | .newTask value, s =>
    if jsTrim value ≠ "" then
      let s1 := saveToHistory s
      let nt := newTaskOfInput today s.tasks value
      let s2 := refreshFiltered today { s1 with tasks := s1.tasks ++ [nt] }
      moveCursorTo s2 nt.id
    else s
  | .editTaskText value, s =>
    if jsTrim value ≠ "" then
      match selected s with
      | some task =>
        if value ≠ task.text then
          let s1 := saveToHistory s
          refreshFiltered today { s1 with tasks := mapById s1.tasks task.id (editApply value) }
        else s
      | none => s
    else s
  | .updateTask id patch, s =>
    let s1 := saveToHistory s
    refreshFiltered today { s1 with tasks := mapById s1.tasks id (fun t => mergePatch t patch) }
  | .deleteTask id, s =>
    let s1 := saveToHistory s
    refreshFiltered today { s1 with tasks := s1.tasks.filter (fun t => t.id ≠ id) }
  | .toggleCompletion, s =>
    match selected s with
    | none => s
    | some task =>
      let s1 := saveToHistory s
      refreshFiltered today { s1 with tasks := mapById s1.tasks task.id (tglTask today) }
  | .setPriority p, s =>
    match selected s with
    | none => s
    | some task =>
      if (s.tasks.find? (fun t => t.id = task.id)).isSome then
        let s1 := saveToHistory s
        refreshFiltered today { s1 with tasks := mapById s1.tasks task.id (fun t => { t with priority := some p }) }
      else s
  | .addProject value, s =>
    if jsTrim value ≠ "" then
      match selected s with
      | some task =>
        if ¬task.projects.contains value then
          let s1 := saveToHistory s
          refreshFiltered today
            { s1 with tasks := mapById s1.tasks task.id (fun t =>
                { t with projects := t.projects ++ [value], text := t.text ++ " +" ++ value }) }
        else s
      | none => s
    else s
  | .addContext value, s =>
    if jsTrim value ≠ "" then
      match selected s with
      | some task =>
        if ¬task.contexts.contains value then
          let s1 := saveToHistory s
          refreshFiltered today
            { s1 with tasks := mapById s1.tasks task.id (fun t =>
                { t with contexts := t.contexts ++ [value], text := t.text ++ " @" ++ value }) }
        else s
      | none => s
    else s
  | .addDueDate value, s =>
    if isDateStr value then
      match selected s with
      | some task =>
        let s1 := saveToHistory s
        refreshFiltered today { s1 with tasks := mapById s1.tasks task.id (addDueApply value) }
      | none => s
    else s
  | .deleteElement, s => applyDeleteElement today s
  | .paste, s =>
    match s.yankedTask with
    | none => s
    | some y =>
      let s1 := saveToHistory s
      let nt := { y with
        id := newId s.tasks
        completed := false
        completionDate := none
        creationDate := some today }
      let s2 := refreshFiltered today { s1 with tasks := s1.tasks ++ [nt] }
      moveCursorTo s2 nt.id
  | .convertFormat target, s =>
    let s1 := saveToHistory s
    refreshFiltered today { s1 with tasks := convertPriorities s1.tasks target }

/-- Whether `deleteElement` actually mutates (snapshots). -/
def elemDeletable (t : Task) (idx : Nat) : Prop :=
  match elemTarget t idx with
  | .priorityE => t.priority.isSome = true
  | .dateE => True
  | .projectE _ => True
  | .contextE _ => True
  | .metaE _ => True
  | _ => False

/-- The condition under which an action takes its mutating branch (and hence
snapshots the pre-state). -/
def actionMutates : Action → StoreState → Prop
  | .addTask _, _ => True
  | .newTask v, _ => jsTrim v ≠ ""
  | .editTaskText v, s => jsTrim v ≠ "" ∧ ∃ t, selected s = some t ∧ v ≠ t.text
  | .updateTask _ _, _ => True
  | .deleteTask _, _ => True
  | .toggleCompletion, s => ∃ t, selected s = some t
  | .setPriority _, s =>
    ∃ t, selected s = some t ∧ (s.tasks.find? (fun x => x.id = t.id)).isSome = true
  | .addProject v, s => jsTrim v ≠ "" ∧ ∃ t, selected s = some t ∧ ¬t.projects.contains v
  | .addContext v, s => jsTrim v ≠ "" ∧ ∃ t, selected s = some t ∧ ¬t.contexts.contains v
  | .addDueDate v, s => isDateStr v = true ∧ ∃ t, selected s = some t
  | .deleteElement, s => ∃ t, selected s = some t ∧ elemDeletable t s.currentElementIndex
  | .paste, s => ∃ t, s.yankedTask = some t
  | .convertFormat _, _ => True

/-! ### Panel ring (`useKeyboardNavigation` / legacy `keyboardTUI`) -/

inductive FocusedPanel | tasks | priorities | stats | projects | contexts
deriving Repr, DecidableEq

/-- The `PANELS` ring of `src/tui/hooks/useKeyboard.ts` ("stats removed - it's in
header now"). -/
def PANELS : List FocusedPanel := [.tasks, .priorities, .projects, .contexts]

/-- The five-entry ring of the legacy `keyboardTUI` Tab handler. -/
def panelsLegacy : List FocusedPanel := [.tasks, .priorities, .stats, .projects, .contexts]

/-- JS `Array.prototype.indexOf` (−1 when absent). -/
def jsIndexOfAux (x : FocusedPanel) : List FocusedPanel → Nat → Int
  | [], _ => -1
  | p :: rest, i => if p = x then (i : Int) else jsIndexOfAux x rest (i + 1)

def jsIndexOf (l : List FocusedPanel) (x : FocusedPanel) : Int := jsIndexOfAux x l 0

/-- The Tab handler: `panels[(panels.indexOf(focusedPanel) + 1) % panels.length]`
(the focused panel is kept if the lookup were ever out of range). -/
def nextPanel (panels : List FocusedPanel) (p : FocusedPanel) : FocusedPanel :=
  let ci := jsIndexOf panels p
  let ni := ((ci + 1) % (panels.length : Int)).toNat
  panels.getD ni p

/-! ### Shared lemmas -/

theorem getLast?_pushHistory (t : List Task) (h : List (List Task)) :
    (pushHistory t h).getLast? = some t := by
  unfold pushHistory
  simp only []
  split
  · rename_i hlen
    cases h with
    | nil => simp at hlen
    | cons a h2 => simp
  · simp

theorem undoStore_tasks_of_push (today : String) (s' : StoreState)
    (t : List Task) (h : List (List Task)) (hh : s'.history = pushHistory t h) :
    (undoStore today s').tasks = t := by
  unfold undoStore
  rw [hh, getLast?_pushHistory]
  simp [refreshFiltered]

theorem moveCursorTo_history (s : StoreState) (i : Nat) :
    (moveCursorTo s i).history = s.history := by
  unfold moveCursorTo
  split <;> rfl

theorem moveCursorTo_tasks (s : StoreState) (i : Nat) :
    (moveCursorTo s i).tasks = s.tasks := by
  unfold moveCursorTo
  split <;> rfl

theorem decEl_history (s : StoreState) : (decEl s).history = s.history := by
  unfold decEl
  split <;> rfl

theorem applyAction_history (today : String) (a : Action) (s : StoreState)
    (hg : actionMutates a s) :
    (applyAction today a s).history = pushHistory s.tasks s.history := by
  cases a with
  | addTask t => simp [applyAction, saveToHistory, refreshFiltered]
  | newTask v =>
    have hv : jsTrim v ≠ "" := hg
    simp [applyAction, hv, saveToHistory, refreshFiltered, moveCursorTo_history]
  | editTaskText v =>
    obtain ⟨hv, t, hsel, hne⟩ := hg
    simp [applyAction, hv, hsel, hne, saveToHistory, refreshFiltered]
  | updateTask id patch => simp [applyAction, saveToHistory, refreshFiltered]
  | deleteTask id => simp [applyAction, saveToHistory, refreshFiltered]
  | toggleCompletion =>
    obtain ⟨t, hsel⟩ := hg
    simp [applyAction, hsel, saveToHistory, refreshFiltered]
  | setPriority p =>
    obtain ⟨t, hsel, hfind⟩ := hg
    simp [applyAction, hsel, hfind, saveToHistory, refreshFiltered]
  | addProject v =>
    obtain ⟨hv, t, hsel, hnp⟩ := hg
    have hnp2 : v ∉ t.projects := by simpa using hnp
    simp [applyAction, hv, hsel, hnp2, saveToHistory, refreshFiltered]
  | addContext v =>
    obtain ⟨hv, t, hsel, hnc⟩ := hg
    have hnc2 : v ∉ t.contexts := by simpa using hnc
    simp [applyAction, hv, hsel, hnc2, saveToHistory, refreshFiltered]
  | addDueDate v =>
    obtain ⟨hd, t, hsel⟩ := hg
    simp [applyAction, hd, hsel, saveToHistory, refreshFiltered]
  | deleteElement =>
    obtain ⟨t, hsel, hdel⟩ := hg
    simp only [applyAction, applyDeleteElement, hsel]
    simp only [elemDeletable] at hdel
    cases htgt : elemTarget t s.currentElementIndex <;> rw [htgt] at hdel
    case checkbox => exact hdel.elim
    case textE => exact hdel.elim
    case outOfRange => exact hdel.elim
    case priorityE =>
      simp [hdel, decEl_history, refreshFiltered, saveToHistory]
    case dateE => simp [decEl_history, refreshFiltered, saveToHistory]
    case projectE i => simp [decEl_history, refreshFiltered, saveToHistory]
    case contextE i => simp [decEl_history, refreshFiltered, saveToHistory]
    case metaE i => simp [decEl_history, refreshFiltered, saveToHistory]
  | paste =>
    obtain ⟨y, hy⟩ := hg
    simp [applyAction, hy, saveToHistory, refreshFiltered, moveCursorTo_history]
  | convertFormat target => simp [applyAction, saveToHistory, refreshFiltered]

/-! ### Sample data for witnesses -/

def wTask1 : Task :=
  { id := 1, completed := false, priority := none, completionDate := none,
    creationDate := none, text := "one", contexts := [], projects := [], metadata := [] }

def wTask2 : Task :=
  { id := 2, completed := false, priority := none, completionDate := none,
    creationDate := none, text := "two", contexts := [], projects := [], metadata := [] }

def wTask3 : Task :=
  { id := 3, completed := false, priority := none, completionDate := none,
    creationDate := none, text := "three", contexts := [], projects := [], metadata := [] }

def wStore123 : StoreState :=
  { tasks := [wTask1, wTask2, wTask3], filteredTasks := [wTask1, wTask2, wTask3],
    history := [], currentTaskIndex := 0, currentElementIndex := 0,
    showCompleted := false, searchFilter := "", activeFilter := none,
    sortMode := .priority, yankedTask := none }

def wStoreHist : StoreState := { wStore123 with history := [[wTask1]] }

/-! ### Claims -/

/-- C1: performing any mutating user action (add, edit, update, delete, toggle
completion, set priority, add/remove tag or due date, paste, priority
conversion) and then `undo` leaves the task collection equal to its state
immediately before the action, whenever the action takes its mutating branch. -/
theorem undo_reverts_mutating_action (today : String) (a : Action) (s : StoreState)
    (hg : actionMutates a s) :
    (undoStore today (applyAction today a s)).tasks = s.tasks :=
  undoStore_tasks_of_push today _ s.tasks s.history (applyAction_history today a s hg)

/-- C1 witness: on a store with ids 1,2,3, `delete(2)` followed by `undo()`
restores task 2 with identical fields, original id, and the pre-delete order. -/
theorem undo_reverts_mutating_action_witness :
    (undoStore "2025-10-12" (applyAction "2025-10-12" (Action.deleteTask 2) wStore123)).tasks
      = [wTask1, wTask2, wTask3] :=
  undo_reverts_mutating_action "2025-10-12" (Action.deleteTask 2) wStore123 trivial

/-- C9: `saveToHistory` pushes a snapshot of the current task collection;
afterwards the stack holds at most 50 snapshots, the new snapshot is on top,
and a push that would exceed 50 entries evicts the oldest snapshot. -/
theorem snapshot_stack_bounded (s : StoreState) (h : s.history.length ≤ 50) :
    (saveToHistory s).history.length ≤ 50 ∧
    (saveToHistory s).history.getLast? = some s.tasks ∧
    (s.history.length < 50 → (saveToHistory s).history = s.history ++ [s.tasks]) ∧
    (s.history.length = 50 → (saveToHistory s).history = s.history.tail ++ [s.tasks]) := by
  refine ⟨?_, getLast?_pushHistory s.tasks s.history, ?_, ?_⟩
  · simp only [saveToHistory, pushHistory]
    split
    · rename_i hlen
      simp only [List.length_tail, List.length_append, List.length_singleton]
      omega
    · rename_i hlen
      simp only [List.length_append, List.length_singleton] at hlen ⊢
      omega
  · intro hlt
    simp only [saveToHistory, pushHistory]
    rw [if_neg]
    simp only [List.length_append, List.length_singleton]
    omega
  · intro heq
    simp only [saveToHistory, pushHistory]
    rw [if_pos]
    · cases hh : s.history with
      | nil => rw [hh] at heq; simp at heq
      | cons a h2 => simp
    · simp only [List.length_append, List.length_singleton]
      omega

/-- C9 witness: a concrete snapshot push below the bound. -/
theorem snapshot_stack_bounded_witness :
    (saveToHistory wStoreHist).history = [[wTask1], [wTask1, wTask2, wTask3]] ∧
    (saveToHistory wStoreHist).history.length ≤ 50 :=
  ⟨(snapshot_stack_bounded wStoreHist (by decide)).2.2.1 (by decide),
   (snapshot_stack_bounded wStoreHist (by decide)).1⟩

/-- C2: with an active filter set, the visible-list computation is independent
of the `showCompleted` toggle, and (with an empty search string) a priority
filter keeps exactly the tasks whose priority equals the filter value —
completed tasks included. -/
theorem active_filter_overrides_show_completed
    (today : String) (s : StoreState) (f : ActiveFilter)
    (hf : s.activeFilter = some f) :
    (∀ b₁ b₂ : Bool,
      visibleTasks today { s with showCompleted := b₁ } =
      visibleTasks today { s with showCompleted := b₂ }) ∧
    (s.searchFilter = "" → f.type = FilterType.priority →
      ∀ t : Task, t ∈ visibleTasks today s ↔
        (t ∈ s.tasks ∧ priMatches t.priority f.value = true)) := by
  constructor
  · intro b₁ b₂
    have key : ∀ b : Bool,
        visibleTasks today { s with showCompleted := b } =
          sortTasks s.sortMode
            (s.tasks.filter (keepTask today (some f) b s.searchFilter)) := by
      intro b
      simp [visibleTasks, hf]
    rw [key b₁, key b₂]
    rfl
  · intro hsr htype t
    have hk : ∀ u : Task,
        keepTask today (some f) s.showCompleted "" u = priMatches u.priority f.value := by
      intro u
      unfold keepTask
      cases hp : priMatches u.priority f.value
      · simp [htype, hp]
      · simp [htype, hp]
    simp only [visibleTasks, mem_sortTasks, List.mem_filter, hf, hsr, hk]

/-- C2 witness tasks/store: active filter = priority "A", showCompleted off. -/
def wTaskDoneA : Task :=
  { id := 1, completed := true, priority := some "A", completionDate := some "2025-10-01",
    creationDate := none, text := "done a", contexts := [], projects := [], metadata := [] }

def wTaskActiveB : Task :=
  { id := 2, completed := false, priority := some "B", completionDate := none,
    creationDate := none, text := "active b", contexts := [], projects := [], metadata := [] }

def wStoreFilterA : StoreState :=
  { tasks := [wTaskDoneA, wTaskActiveB], filteredTasks := [], history := [],
    currentTaskIndex := 0, currentElementIndex := 0, showCompleted := false,
    searchFilter := "", activeFilter := some ⟨.priority, "A"⟩,
    sortMode := .priority, yankedTask := none }

/-- C2 witness: the completed priority-A task is visible even though
`showCompleted` is off, while the active priority-B task is not. -/
theorem active_filter_overrides_show_completed_witness :
    wTaskDoneA ∈ visibleTasks "2025-10-12" wStoreFilterA ∧
    wTaskActiveB ∉ visibleTasks "2025-10-12" wStoreFilterA := by
  have h := (active_filter_overrides_show_completed "2025-10-12" wStoreFilterA
    ⟨.priority, "A"⟩ rfl).2 rfl rfl
  constructor
  · exact (h wTaskDoneA).mpr ⟨by decide, by decide⟩
  · intro hmem
    exact absurd ((h wTaskActiveB).mp hmem).2 (by decide)

/-- A completed task whose completion date is in the past, shown in the view. -/
def wTaskDoneOld : Task :=
  { id := 1, completed := true, priority := none, completionDate := some "2020-01-01",
    creationDate := none, text := "done", contexts := [], projects := [], metadata := [] }

def wStoreDone : StoreState :=
  { tasks := [wTaskDoneOld], filteredTasks := [wTaskDoneOld], history := [],
    currentTaskIndex := 0, currentElementIndex := 0, showCompleted := true,
    searchFilter := "", activeFilter := none, sortMode := .priority, yankedTask := none }

/-- C5 counterexample: toggling a completed task (completionDate 2020-01-01,
today 2025-10-12) twice ends with completionDate = today, not the original
value: the claim fails for completed tasks with an earlier completion date. -/
theorem toggle_twice_completed_cex :
    ((applyAction "2025-10-12" Action.toggleCompletion
        (applyAction "2025-10-12" Action.toggleCompletion wStoreDone)).tasks.map
          Task.completionDate = [some "2025-10-12"]) ∧
    wStoreDone.tasks.map Task.completionDate = [some "2020-01-01"] ∧
    (some "2025-10-12" : Option String) ≠ some "2020-01-01" :=
  ⟨by decide, by decide, by decide⟩

/-- C5 amended: toggling twice always restores `completed`; it returns
`completionDate` to null for an initially active task (its original value under
the data-model invariant), but for an initially completed task the final
`completionDate` is today's date, not the original one. -/
theorem toggle_twice_amended (today : String) (t : Task) :
    (tglTask today (tglTask today t)).completed = t.completed ∧
    (t.completed = false → (tglTask today (tglTask today t)).completionDate = none) ∧
    (t.completed = true → (tglTask today (tglTask today t)).completionDate = some today) := by
  cases hc : t.completed <;> simp [tglTask, hc]

/-- C5 amended witness: an active task round-trips both fields. -/
theorem toggle_twice_amended_witness :
    (tglTask "2025-10-12" (tglTask "2025-10-12" wTask1)).completed = false ∧
    (tglTask "2025-10-12" (tglTask "2025-10-12" wTask1)).completionDate = none :=
  ⟨(toggle_twice_amended "2025-10-12" wTask1).1,
   (toggle_twice_amended "2025-10-12" wTask1).2.1 rfl⟩

/-- C6: toggling completion rewrites the task collection by updating only the
selected id with `tglTask`, which changes only `completed` and
`completionDate` (id, text, priority, dates, tags and metadata are untouched),
and leaves every other task unchanged. -/
theorem toggle_changes_only_completion (today : String) (s : StoreState) (task : Task)
    (hsel : selected s = some task) :
    (applyAction today Action.toggleCompletion s).tasks
        = mapById s.tasks task.id (tglTask today) ∧
    (∀ t : Task, (tglTask today t).id = t.id ∧ (tglTask today t).priority = t.priority ∧
      (tglTask today t).text = t.text ∧ (tglTask today t).creationDate = t.creationDate ∧
      (tglTask today t).projects = t.projects ∧ (tglTask today t).contexts = t.contexts ∧
      (tglTask today t).metadata = t.metadata ∧
      (tglTask today t).completed = !t.completed) ∧
    (∀ t : Task, t.id ≠ task.id →
      (if t.id = task.id then tglTask today t else t) = t) := by
  refine ⟨?_, ?_, ?_⟩
  · simp [applyAction, hsel, saveToHistory, refreshFiltered]
  · intro t
    simp [tglTask]
  · intro t ht
    simp [ht]

/-- C6 witness: toggling on the three-task store flips task 1 only. -/
theorem toggle_changes_only_completion_witness :
    (applyAction "2025-10-12" Action.toggleCompletion wStore123).tasks
        = mapById wStore123.tasks 1 (tglTask "2025-10-12") ∧
    (tglTask "2025-10-12" wTask2).priority = wTask2.priority ∧
    (if wTask2.id = (1 : Nat) then tglTask "2025-10-12" wTask2 else wTask2) = wTask2 :=
  ⟨(toggle_changes_only_completion "2025-10-12" wStore123 wTask1 rfl).1,
   ((toggle_changes_only_completion "2025-10-12" wStore123 wTask1 rfl).2.1 wTask2).2.1,
   (toggle_changes_only_completion "2025-10-12" wStore123 wTask1 rfl).2.2 wTask2 (by decide)⟩

/-- A task whose text and derived project cache will go stale under `update`. -/
def wTaskOldA : Task :=
  { id := 1, completed := false, priority := none, completionDate := none,
    creationDate := none, text := "old +A", contexts := [], projects := ["A"], metadata := [] }

def wStoreC4 : StoreState :=
  { tasks := [wTaskOldA], filteredTasks := [wTaskOldA], history := [],
    currentTaskIndex := 0, currentElementIndex := 0, showCompleted := false,
    searchFilter := "", activeFilter := none, sortMode := .priority, yankedTask := none }

/-- C4 counterexample: `update` of task 1 with a text-only patch keeps the stale projects
cache `["A"]`, whereas extraction from the new text yields `["B"]` — so the
derived fields are *not* re-extracted by `update`. -/
theorem update_text_keeps_stale_derived_fields_cex :
    ((applyAction "2025-10-12" (Action.updateTask 1 { text := some "new +B" })
        wStoreC4).tasks.map Task.projects = [["A"]]) ∧
    extractProjects "new +B" = ["B"] ∧
    (["A"] : List String) ≠ ["B"] :=
  ⟨by decide, by decide, by decide⟩

/-- C4 amended: `update(id, patch)` applies the patch as a plain shallow merge,
so a text-only patch leaves `projects`/`contexts`/`metadata` at their previous
values; re-extraction from the new text happens in the command-bar edit-task
flow instead, which resets all three derived fields. -/
theorem update_patch_plain_merge (today : String) (s : StoreState) (id : Nat) (v : String) :
    (applyAction today (Action.updateTask id { text := some v }) s).tasks
      = s.tasks.map (fun t => if t.id = id then { t with text := v } else t) ∧
    (∀ task : Task, selected s = some task → jsTrim v ≠ "" → v ≠ task.text →
      (applyAction today (Action.editTaskText v) s).tasks
        = s.tasks.map (fun t => if t.id = task.id then
            { t with
              text := v
              contexts := extractContexts v
              projects := extractProjects v
              metadata := extractMetadata v } else t)) := by
  constructor
  · simp [applyAction, saveToHistory, refreshFiltered, mapById, mergePatch]
  · intro task hsel hv hne
    simp [applyAction, hv, hsel, hne, saveToHistory, refreshFiltered, mapById, editApply]

/-- C4 amended witness: the merge/edit semantics at the concrete store. -/
theorem update_patch_plain_merge_witness :
    ((applyAction "2025-10-12" (Action.updateTask 1 { text := some "new +B" })
        wStoreC4).tasks
      = wStoreC4.tasks.map (fun t => if t.id = 1 then { t with text := "new +B" } else t)) ∧
    ((applyAction "2025-10-12" (Action.editTaskText "new +B") wStoreC4).tasks
      = wStoreC4.tasks.map (fun t => if t.id = wTaskOldA.id then
          { t with
            text := "new +B"
            contexts := extractContexts "new +B"
            projects := extractProjects "new +B"
            metadata := extractMetadata "new +B" } else t)) :=
  ⟨(update_patch_plain_merge "2025-10-12" wStoreC4 1 "new +B").1,
   (update_patch_plain_merge "2025-10-12" wStoreC4 1 "new +B").2 wTaskOldA rfl
     (by decide) (by decide)⟩

theorem digit_not_upper (c : Char) (h : isDigitCh c = true) : isUpperCh c = false := by
  simp only [isDigitCh, Bool.and_eq_true, decide_eq_true_eq] at h
  by_cases hA : 'A' ≤ c
  · exact absurd (le_trans hA h.2) (by decide)
  · simp [isUpperCh, hA]

/-- C10: the committed new-task entry recognizes a leading priority only as
`(` + one uppercase letter + `)` + whitespace: any successful prefix match has
that exact shape, and a digit-parenthesis prefix such as `(1) ` is rejected —
the text then keeps the whole input and the priority is null (the submit
handler never consults the configured priority mode). -/
theorem new_task_priority_letter_only (today : String) (tasks : List Task) (value : String) :
    (∀ p r : String, jsPriorityMatch value = some (p, r) →
      ∃ (c : Char) (ws tl : List Char),
        value.data = '(' :: c :: ')' :: (ws ++ tl) ∧ isUpperCh c = true ∧
        ws ≠ [] ∧ (∀ x ∈ ws, isWs x = true) ∧ p = ⟨[c]⟩) ∧
    (∀ (d : Char) (rest : List Char), isDigitCh d = true →
      value.data = '(' :: d :: ')' :: rest →
      (newTaskOfInput today tasks value).priority = none ∧
      (newTaskOfInput today tasks value).text = value) := by
  constructor
  · intro p r h
    unfold jsPriorityMatch at h
    split at h
    case h_2 => exact absurd h (by simp)
    case h_1 =>
      rename_i x0 c rest hval
      split at h
      case isFalse => exact absurd h (by simp)
      case isTrue hup =>
        simp only [] at h
        split at h
        case isTrue hws => exact absurd h (by simp)
        case isFalse hws =>
          refine ⟨c, rest.takeWhile isWs, rest.dropWhile isWs, ?_, hup, hws, ?_, ?_⟩
          · rw [hval, List.takeWhile_append_dropWhile]
          · intro x hx
            exact List.mem_takeWhile_imp hx
          · split at h
            · injection h with h2
              rw [Prod.mk.injEq] at h2
              exact h2.1.symm
            · split at h
              · injection h with h2
                rw [Prod.mk.injEq] at h2
                exact h2.1.symm
              · exact absurd h (by simp)
  · intro d rest hd hval
    have hm : jsPriorityMatch value = none := by
      unfold jsPriorityMatch
      rw [hval]
      simp [digit_not_upper d hd]
    constructor
    · simp [newTaskOfInput, hm]
    · simp [newTaskOfInput, hm]

/-- C10 witness: `(1) buy milk` keeps its digit prefix in the text with a null
priority, while `(A) buy milk` is recognized. -/
theorem new_task_priority_letter_only_witness :
    (newTaskOfInput "2025-10-12" [] "(1) buy milk").priority = none ∧
    (newTaskOfInput "2025-10-12" [] "(1) buy milk").text = "(1) buy milk" ∧
    jsPriorityMatch "(A) buy milk" = some ("A", "buy milk") :=
  ⟨((new_task_priority_letter_only "2025-10-12" [] "(1) buy milk").2 '1'
      (" buy milk".data) (by decide) rfl).1,
   ((new_task_priority_letter_only "2025-10-12" [] "(1) buy milk").2 '1'
      (" buy milk".data) (by decide) rfl).2,
   by decide⟩

/-- The 1-based line numbers of the non-blank lines of a file. -/
def nonBlankLineNumbersFrom : List String → Nat → List Nat
  | [], _ => []
  | l :: ls, k =>
    if jsTrim l ≠ "" then k :: nonBlankLineNumbersFrom ls (k + 1)
    else nonBlankLineNumbersFrom ls (k + 1)

def nonBlankLineNumbers (content : String) : List Nat :=
  nonBlankLineNumbersFrom (jsSplitNl content) 1

theorem parseFields_eq_none_iff (l : String) : parseFields l = none ↔ jsTrim l = "" := by
  by_cases ht : trimCh l.data = []
  · constructor
    · intro _
      show (⟨trimCh l.data⟩ : String) = ""
      rw [ht]
    · intro _
      simp [parseFields, ht]
  · constructor
    · intro h
      simp [parseFields, ht] at h
    · intro h
      exfalso
      apply ht
      have h2 := congrArg String.data h
      simpa using h2

theorem map_id_parseLinesFrom (ls : List String) :
    ∀ k : Nat, (parseLinesFrom ls k).map Task.id = nonBlankLineNumbersFrom ls k := by
  induction ls with
  | nil => intro k; rfl
  | cons l ls ih =>
    intro k
    simp only [parseLinesFrom, nonBlankLineNumbersFrom, parseLine]
    cases hf : parseFields l with
    | none =>
      have hb : jsTrim l = "" := (parseFields_eq_none_iff l).mp hf
      simp [hb, ih]
    | some f =>
      have hne : jsTrim l ≠ "" := by
        intro hh
        rw [(parseFields_eq_none_iff l).mpr hh] at hf
        exact Option.noConfusion hf
      simp [hne, ih, mkTask]

/-- C7 counterexample: a blank line consumes an id — parsing
`"Task 1\n\nTask 2\n"` (two non-blank lines) yields ids `[1, 3]`, not
`[1, 2]`. -/
theorem parse_ids_blank_line_cex :
    (parseTodoFile "Task 1\n\nTask 2\n").map Task.id = [1, 3] ∧
    ([1, 3] : List Nat) ≠ [1, 2] :=
  ⟨by decide, by decide⟩

/-- C7 amended: `parseFile` gives every task the id equal to its 1-based line
number in the file; blank lines are skipped as tasks but still consume ids, so
the numbering of subsequent tasks jumps over them. -/
theorem parse_ids_are_line_numbers (content : String) :
    (parseTodoFile content).map Task.id = nonBlankLineNumbers content :=
  map_id_parseLinesFrom (jsSplitNl content) 1

/-- C8 counterexample: in the OpenTUI keyboard hook, Tab from the Priorities
panel goes straight to Projects — the Stats panel is not in the `PANELS`
ring at all. -/
theorem tab_ring_missing_stats_cex :
    nextPanel PANELS FocusedPanel.priorities = FocusedPanel.projects ∧
    FocusedPanel.projects ≠ FocusedPanel.stats ∧
    FocusedPanel.stats ∉ PANELS :=
  ⟨by decide, by decide, by decide⟩

/-- C8 amended: the legacy `keyboardTUI` Tab handler cycles the five-panel
ring Tasks → Priorities → Stats → Projects → Contexts → Tasks, while the newer
OpenTUI keyboard hook cycles a four-panel ring Tasks → Priorities → Projects
→ Contexts (Stats moved to the header). -/
theorem tab_ring_amended :
    (nextPanel panelsLegacy .tasks = .priorities ∧
     nextPanel panelsLegacy .priorities = .stats ∧
     nextPanel panelsLegacy .stats = .projects ∧
     nextPanel panelsLegacy .projects = .contexts ∧
     nextPanel panelsLegacy .contexts = .tasks) ∧
    (nextPanel PANELS .tasks = .priorities ∧
     nextPanel PANELS .priorities = .projects ∧
     nextPanel PANELS .projects = .contexts ∧
     nextPanel PANELS .contexts = .tasks) := by
  decide

/-! ### Round-trip (C3) -/

/-- A line is well formed when it parses and its canonical serialization
(fixed field order: completion marker, completion date, priority, creation
date, text) reproduces it exactly. -/
def wellFormedLine (line : String) : Bool :=
  match parseFields line with
  | some f => serializeTask (mkTask 1 f) == line
  | none => false

/-- A backing file is well formed when it is newline-terminated, nonempty, and
every line (all non-blank) is well formed. -/
def wellFormedFile (content : String) : Bool :=
  let ls := jsSplitNl content
  decide (2 ≤ ls.length) && (ls.getLastD "?" == "") && ls.dropLast.all wellFormedLine

theorem serializeTask_mkTask (k : Nat) (f : LineFields) :
    serializeTask (mkTask k f) = serializeTask (mkTask 1 f) := rfl

theorem parseLinesFrom_append_blank (ls : List String) :
    ∀ k : Nat, parseLinesFrom (ls ++ [""]) k = parseLinesFrom ls k := by
  induction ls with
  | nil =>
    intro k
    rfl
  | cons l ls ih =>
    intro k
    simp only [List.cons_append, parseLinesFrom]
    cases parseLine l k <;> simp [ih]

theorem map_serializeTask_parseLinesFrom (ls : List String) :
    ∀ k : Nat, (∀ l ∈ ls, wellFormedLine l = true) →
      (parseLinesFrom ls k).map serializeTask = ls := by
  induction ls with
  | nil => intro k _; rfl
  | cons l ls ih =>
    intro k hall
    have hl := hall l (by simp)
    have hrest : ∀ x ∈ ls, wellFormedLine x = true := fun x hx => hall x (by simp [hx])
    unfold wellFormedLine at hl
    cases hf : parseFields l with
    | none => rw [hf] at hl; exact absurd hl (by simp)
    | some f =>
      rw [hf] at hl
      have hser : serializeTask (mkTask 1 f) = l := by
        simp only [] at hl
        exact eq_of_beq hl
      simp [parseLinesFrom, parseLine, hf, ih (k + 1) hrest, serializeTask_mkTask, hser]

theorem mk_append (a b : List Char) : (⟨a⟩ : String) ++ ⟨b⟩ = ⟨a ++ b⟩ := rfl

theorem joinWith_map_mk (ws : List (List Char)) :
    joinWith "\n" (ws.map (fun l => (⟨l⟩ : String))) = ⟨intercalateCh '\n' ws⟩ := by
  induction ws with
  | nil => rfl
  | cons w rest ih =>
    cases rest with
    | nil => rfl
    | cons w2 rest2 =>
      show (⟨w⟩ : String) ++ "\n" ++ joinWith "\n" ((w2 :: rest2).map _) = _
      rw [ih]
      show (⟨(w ++ ['\n']) ++ intercalateCh '\n' (w2 :: rest2)⟩ : String) = _
      have : (w ++ ['\n']) ++ intercalateCh '\n' (w2 :: rest2)
          = w ++ '\n' :: intercalateCh '\n' (w2 :: rest2) := by
        simp [List.append_assoc]
      rw [this]
      rfl

theorem intercalateCh_concat_nil (ws : List (List Char)) (h : ws ≠ []) :
    intercalateCh '\n' (ws ++ [[]]) = intercalateCh '\n' ws ++ ['\n'] := by
  induction ws with
  | nil => exact absurd rfl h
  | cons w rest ih =>
    cases rest with
    | nil => rfl
    | cons w2 rest2 =>
      have ih2 := ih (by simp)
      show w ++ '\n' :: intercalateCh '\n' ((w2 :: rest2) ++ [[]])
          = (w ++ '\n' :: intercalateCh '\n' (w2 :: rest2)) ++ ['\n']
      rw [ih2]
      simp

/-- C3: for every well-formed backing-file content, serializing the result of
parsing it reproduces the content byte for byte (each task serialized in the
fixed order completion marker → completion date → priority → creation date →
text). -/
theorem parse_serialize_roundtrip (content : String) (h : wellFormedFile content = true) :
    serializeTodoFile (parseTodoFile content) = content := by
  unfold wellFormedFile at h
  simp only [Bool.and_eq_true, decide_eq_true_eq, List.all_eq_true, beq_iff_eq] at h
  obtain ⟨⟨hlen, hlast⟩, hall⟩ := h
  rcases List.eq_nil_or_concat (splitCh '\n' content.data) with hnil | ⟨winit, wlast, hws⟩
  · exact absurd hnil (splitCh_ne_nil _ _)
  · have hls : jsSplitNl content = winit.map (fun l => (⟨l⟩ : String)) ++ [⟨wlast⟩] := by
      unfold jsSplitNl
      rw [hws]
      simp
    have hwlast : wlast = [] := by
      rw [hls] at hlast
      simp only [List.getLastD_concat] at hlast
      have h2 := congrArg String.data hlast
      simpa using h2
    have hwinit : winit ≠ [] := by
      intro hw
      rw [hls, hw] at hlen
      simp at hlen
    have hallinit : ∀ l ∈ winit.map (fun l => (⟨l⟩ : String)), wellFormedLine l = true := by
      intro l hl
      apply hall
      rw [hls, List.dropLast_concat]
      exact hl
    unfold parseTodoFile serializeTodoFile
    rw [hls, hwlast]
    rw [show ((⟨([] : List Char)⟩ : String)) = "" from rfl]
    rw [parseLinesFrom_append_blank,
        map_serializeTask_parseLinesFrom _ 1 hallinit, joinWith_map_mk]
    have hfinal : intercalateCh '\n' winit ++ ['\n'] = content.data := by
      have h2 := intercalateCh_splitCh '\n' content.data
      rw [hws, hwlast, List.concat_eq_append] at h2
      rw [intercalateCh_concat_nil winit hwinit] at h2
      exact h2
    calc (⟨intercalateCh '\n' winit⟩ : String) ++ "\n"
        = ⟨intercalateCh '\n' winit ++ ['\n']⟩ := rfl
      _ = ⟨content.data⟩ := by rw [hfinal]
      _ = content := rfl

def wContent : String :=
  "(A) 2025-12-10 Call Mom +Family @phone\nx 2025-12-10 (B) 2025-12-09 Buy groceries\n"

/-- C3 witness: a concrete two-task file round-trips byte for byte. -/
theorem parse_serialize_roundtrip_witness :
    wellFormedFile wContent = true ∧
    serializeTodoFile (parseTodoFile wContent) = wContent :=
  ⟨by decide, parse_serialize_roundtrip wContent (by decide)⟩

end TodoTui
